import Mathlib

/-!
Verification of the powerplat-update synchronization engine.

This file gives a shallow embedding, in Lean 4, of the sync/reconciliation
core of the powerplat-update repository:

* the reconciler / upsert engine over the `powerplat_updates` table
  (`src/mcp/database/queries.ts`: `upsertUpdate`, `updateCommitDate`);
* the GitHub client (`src/mcp/api/githubClient.ts`: `githubFetch`,
  `normalizeDateToISO`, `parseFrontmatter`, `getRepositoryTree`,
  `fetchAndParseFile`);
* the two sync orchestrators (`syncFromGitHub`): the current sql.js
  service and the legacy better-sqlite3 service
  (`src/mcp/services/sync.service.ts` and its sql.js successor).

SQL statements are modeled by explicit functions on a list-of-rows table
state; the SQLite `LIKE` operator is modeled with its default
ASCII-case-insensitive semantics; `COALESCE` on nullable text columns is
modeled on `Option String`.  Network effects are modeled by passing the
remote responses in as explicit data (`RemoteEnv`); real-time durations
(`Date.now() - startTime`) are abstracted to a single per-run timestamp
`now`, with all duration fields set to 0.  The bookkeeping columns
`updated_at` / `created_at` (written by `datetime('now')` on every
statement and surfaced to no caller) are outside the modeled row.
-/

namespace PowerPlat

/-! ## Data model: the `powerplat_updates` row

A row of the `powerplat_updates` table, restricted to the columns the
application reads and writes (`PowerPlatUpdate` in `src/mcp/types.ts`).
`file_path` is `UNIQUE` in the schema; nullable columns are `Option`. -/

structure UpdateRow where
  filePath : String
  title : String
  description : Option String
  product : String
  releaseDate : Option String
  commitSha : Option String
  commitDate : Option String
  firstCommitDate : Option String
  fileUrl : String
  rawContentUrl : String
deriving Repr, DecidableEq

/-- SQL `COALESCE(a, b)` on nullable text values. -/
def coalesce (a b : Option String) : Option String :=
  match a with
  | some v => some v
  | none => b

/-- The `DO UPDATE SET` clause of `upsertUpdate`: every column is
overwritten from the incoming (`excluded`) record except
`first_commit_date`, which is
`COALESCE(powerplat_updates.first_commit_date, excluded.first_commit_date)`;
the key `file_path` is the conflict target and is unchanged. -/
def applyUpsertClause (r u : UpdateRow) : UpdateRow :=
  { filePath := r.filePath
    title := u.title
    description := u.description
    product := u.product
    releaseDate := u.releaseDate
    commitSha := u.commitSha
    commitDate := u.commitDate
    firstCommitDate := coalesce r.firstCommitDate u.firstCommitDate
    fileUrl := u.fileUrl
    rawContentUrl := u.rawContentUrl }

/-- `upsertUpdate` (`queries.ts`): `INSERT ... ON CONFLICT(file_path) DO
UPDATE SET ...`.  If a row with the same `file_path` exists the update
clause is applied to it; otherwise the record is inserted. -/
def upsertUpdate (tbl : List UpdateRow) (u : UpdateRow) : List UpdateRow :=
  if tbl.any (fun r => r.filePath == u.filePath) then
    tbl.map (fun r => if r.filePath == u.filePath then applyUpsertClause r u else r)
  else
    tbl ++ [u]

/-- The row stored under a given `file_path` key. -/
def findByPath (tbl : List UpdateRow) (k : String) : Option UpdateRow :=
  tbl.find? (fun r => r.filePath == k)

/-- Number of rows stored under a given `file_path` key. -/
def countKey (tbl : List UpdateRow) (k : String) : Nat :=
  tbl.countP (fun r => r.filePath == k)

/-- First non-null value in a list of nullable values, seeded with `acc`:
the value `first_commit_date` reaches after repeatedly applying
`COALESCE(stored, incoming)`. -/
def coalesceAll (acc : Option String) (l : List (Option String)) : Option String :=
  l.foldl coalesce acc

/-! ### Lemmas about the upsert engine -/

theorem coalesce_coalesce (a b : Option String) :
    coalesce (coalesce a b) b = coalesce a b := by
  cases a <;> cases b <;> rfl

theorem applyUpsertClause_filePath (r u : UpdateRow) :
    (applyUpsertClause r u).filePath = r.filePath := rfl

theorem applyUpsertClause_self (u : UpdateRow) : applyUpsertClause u u = u := by
  cases u with
  | mk fp t d p rd cs cd fcd fu rcu =>
    simp only [applyUpsertClause, coalesce]
    cases fcd <;> rfl

theorem applyUpsertClause_applyUpsertClause (r u : UpdateRow) :
    applyUpsertClause (applyUpsertClause r u) u = applyUpsertClause r u := by
  simp only [applyUpsertClause, coalesce_coalesce]

/-- The per-row function applied by the `DO UPDATE` branch preserves the
key column. -/
theorem updateFn_filePath (u r : UpdateRow) :
    ((if r.filePath == u.filePath then applyUpsertClause r u else r)).filePath
      = r.filePath := by
  by_cases h : r.filePath == u.filePath <;> simp [h, applyUpsertClause_filePath]

theorem findByPath_none_iff (tbl : List UpdateRow) (k : String) :
    findByPath tbl k = none ↔ ∀ r ∈ tbl, ¬(r.filePath == k) := by
  simp [findByPath, List.find?_eq_none]

theorem any_eq_true_of_findByPath (tbl : List UpdateRow) (k : String) (r : UpdateRow)
    (h : findByPath tbl k = some r) : tbl.any (fun x => x.filePath == k) = true := by
  have hmem := List.mem_of_find?_eq_some h
  have hpred := List.find?_some h
  exact List.any_eq_true.2 ⟨r, hmem, hpred⟩

/-- On a miss (no stored row under the key) the upsert is a plain insert. -/
theorem upsertUpdate_miss (tbl : List UpdateRow) (u : UpdateRow)
    (h : findByPath tbl u.filePath = none) :
    upsertUpdate tbl u = tbl ++ [u] := by
  have hall := (findByPath_none_iff tbl u.filePath).1 h
  have hany : tbl.any (fun r => r.filePath == u.filePath) = false := by
    by_contra hc
    rcases List.any_eq_true.1 (eq_true_of_ne_false hc) with ⟨r, hmem, hpred⟩
    exact hall r hmem hpred
  simp [upsertUpdate, hany]

/-- On a hit, the stored row under the key becomes the update-clause merge
of the old row with the incoming record. -/
theorem findByPath_upsertUpdate_hit (tbl : List UpdateRow) (k : String)
    (v : UpdateRow) (hv : v.filePath = k) :
    ∀ r, findByPath tbl k = some r →
      findByPath (upsertUpdate tbl v) k = some (applyUpsertClause r v) := by
  intro r hr
  have hany : tbl.any (fun x => x.filePath == v.filePath) = true := by
    rw [hv]; exact any_eq_true_of_findByPath tbl k r hr
  simp only [upsertUpdate, hany, if_true]
  clear hany
  induction tbl with
  | nil => simp [findByPath] at hr
  | cons x xs ih =>
    simp only [findByPath, List.map_cons] at hr ⊢
    rw [List.find?_cons] at hr ⊢
    have hfx : ((if x.filePath == v.filePath then applyUpsertClause x v else x).filePath == k)
        = (x.filePath == k) := by
      by_cases h : x.filePath == v.filePath <;> simp [h, applyUpsertClause_filePath]
    rw [hfx]
    by_cases hx : x.filePath == k
    · simp only [hx] at hr ⊢
      have hxv : (x.filePath == v.filePath) = true := by
        have hk : x.filePath = k := by simpa using hx
        simp [hk, hv]
      rw [if_pos hxv]
      injection hr with h1
      rw [h1]
    · have hx0 : (x.filePath == k) = false := by simpa using hx
      simp only [hx0] at hr ⊢
      exact ih hr

theorem countKey_upsertUpdate_hit (tbl : List UpdateRow) (v : UpdateRow)
    (hany : tbl.any (fun r => r.filePath == v.filePath) = true) (k : String) :
    countKey (upsertUpdate tbl v) k = countKey tbl k := by
  simp only [upsertUpdate, hany, if_true, countKey, List.countP_map]
  apply List.countP_congr
  intro r _
  by_cases h : r.filePath = v.filePath <;>
    simp [Function.comp, h, applyUpsertClause_filePath]

/-- Folding a sequence of same-key upserts over a table that already holds
the key: the stored `first_commit_date` is the coalesce-fold of the stored
value with the incoming values, and the key stays unique. -/
theorem foldl_upsertUpdate_invariant (k : String) (us : List UpdateRow)
    (hus : ∀ v ∈ us, v.filePath = k) :
    ∀ (tbl : List UpdateRow) (r : UpdateRow),
      findByPath tbl k = some r → countKey tbl k = 1 →
      (findByPath (List.foldl upsertUpdate tbl us) k).map (fun x => x.firstCommitDate)
          = some (coalesceAll r.firstCommitDate (us.map (fun v => v.firstCommitDate)))
        ∧ countKey (List.foldl upsertUpdate tbl us) k = 1 := by
  induction us with
  | nil =>
    intro tbl r hr hc
    simp [coalesceAll, hr, hc]
  | cons v vs ih =>
    intro tbl r hr hc
    have hv : v.filePath = k := hus v (by simp)
    have hfind := findByPath_upsertUpdate_hit tbl k v hv r hr
    have hany : tbl.any (fun x => x.filePath == v.filePath) = true := by
      rw [hv]; exact any_eq_true_of_findByPath tbl k r hr
    have hcount : countKey (upsertUpdate tbl v) k = 1 := by
      rw [countKey_upsertUpdate_hit tbl v hany k]; exact hc
    have step := ih (fun w hw => hus w (by simp [hw]))
      (upsertUpdate tbl v) (applyUpsertClause r v) hfind hcount
    simpa [coalesceAll, applyUpsertClause, List.foldl_cons] using step

theorem countKey_eq_zero_of_findByPath_none (tbl : List UpdateRow) (k : String)
    (h : findByPath tbl k = none) : countKey tbl k = 0 := by
  have hall := (findByPath_none_iff tbl k).1 h
  simp only [countKey]
  exact List.countP_eq_zero.2 hall

theorem findByPath_append_self (tbl : List UpdateRow) (u : UpdateRow)
    (h : findByPath tbl u.filePath = none) :
    findByPath (tbl ++ [u]) u.filePath = some u := by
  simp only [findByPath] at h ⊢
  rw [List.find?_append, h]
  simp

/-- The per-row if-update preserves the key, lifted to `List.any`. -/
theorem any_key_map_upsert (tbl : List UpdateRow) (u : UpdateRow) (k : String) :
    ((tbl.map (fun r => if r.filePath == u.filePath then applyUpsertClause r u else r)).any
        (fun r => r.filePath == k))
      = tbl.any (fun r => r.filePath == k) := by
  induction tbl with
  | nil => rfl
  | cons x xs ih =>
    have hx : ((if x.filePath == u.filePath then applyUpsertClause x u else x).filePath == k)
        = (x.filePath == k) := by
      by_cases h : x.filePath == u.filePath <;> simp [h, applyUpsertClause_filePath]
    simp only [List.map_cons, List.any_cons]
    rw [hx, ih]

/-! ## Claim C1: `first_commit_date` under repeated upserts -/

/-- A sample article record, used to instantiate the theorems on concrete
inputs. -/
def sampleRow (fp : String) (fcd : Option String) : UpdateRow :=
  { filePath := fp
    title := "What is new"
    description := none
    product := "Power Platform"
    releaseDate := none
    commitSha := none
    commitDate := none
    firstCommitDate := fcd
    fileUrl := "https://github.com/x"
    rawContentUrl := "https://raw.githubusercontent.com/x" }

/-- A first upsert carrying a NULL `first_commit_date` (the value
`fetchAndParseFile` always produces). -/
def rowNullFirst : UpdateRow := sampleRow "docs/whats-new.md" none

/-- A later upsert of the same file carrying a non-null `first_commit_date`. -/
def rowLaterFirst : UpdateRow := sampleRow "docs/whats-new.md" (some "2026-02-01")

/-- C1, counterexample.  The claim states that after any sequence of
upserts to one key the stored `first_commit_date` equals the value carried
by the *first* upsert.  With the `COALESCE(stored, excluded)` merge, a
first upsert whose `first_commit_date` is NULL is later overwritten: after
upserting `rowNullFirst` then `rowLaterFirst`, the stored value is
`some "2026-02-01"`, not the first upsert's `none`. -/
theorem upsertUpdate_firstCommitDate_not_first_value :
    rowNullFirst.filePath = "docs/whats-new.md"
    ∧ rowLaterFirst.filePath = "docs/whats-new.md"
    ∧ rowNullFirst.firstCommitDate = none
    ∧ (findByPath (List.foldl upsertUpdate [] [rowNullFirst, rowLaterFirst])
          "docs/whats-new.md").map (fun r => r.firstCommitDate)
        = some (some "2026-02-01")
    ∧ (some "2026-02-01" : Option String) ≠ rowNullFirst.firstCommitDate := by
  refine ⟨rfl, rfl, rfl, by decide, by decide⟩

/-- C1, amended.  For every sequence of same-key upserts into a table with
no row under that key, the stored `first_commit_date` afterwards is the
first **non-null** value among the upserted records (NULL if all are
NULL): once non-null it is never overwritten, but a stored NULL is filled
by the next non-null upsert.  The key also stays unique. -/
theorem upsertUpdate_firstCommitDate_firstNonNull (tbl : List UpdateRow)
    (u : UpdateRow) (us : List UpdateRow)
    (h0 : findByPath tbl u.filePath = none)
    (hus : ∀ v ∈ us, v.filePath = u.filePath) :
    (findByPath (List.foldl upsertUpdate tbl (u :: us)) u.filePath).map
        (fun r => r.firstCommitDate)
      = some (coalesceAll u.firstCommitDate (us.map (fun v => v.firstCommitDate)))
    ∧ countKey (List.foldl upsertUpdate tbl (u :: us)) u.filePath = 1 := by
  have hins : upsertUpdate tbl u = tbl ++ [u] := upsertUpdate_miss tbl u h0
  have hfind : findByPath (tbl ++ [u]) u.filePath = some u :=
    findByPath_append_self tbl u h0
  have hcount : countKey (tbl ++ [u]) u.filePath = 1 := by
    simp only [countKey, List.countP_append]
    rw [show tbl.countP (fun r => r.filePath == u.filePath) = 0 from
      countKey_eq_zero_of_findByPath_none tbl u.filePath h0]
    simp
  have := foldl_upsertUpdate_invariant u.filePath us hus (tbl ++ [u]) u hfind hcount
  simpa [List.foldl_cons, hins] using this

/-- C1 witness: two concrete upserts to one key. -/
theorem upsertUpdate_firstCommitDate_firstNonNull_witness :
    (findByPath (List.foldl upsertUpdate []
          [sampleRow "w.md" (some "2026-01-05"), sampleRow "w.md" none]) "w.md").map
        (fun r => r.firstCommitDate)
      = some (some "2026-01-05")
    ∧ countKey (List.foldl upsertUpdate []
          [sampleRow "w.md" (some "2026-01-05"), sampleRow "w.md" none]) "w.md" = 1 := by
  have h := upsertUpdate_firstCommitDate_firstNonNull []
    (sampleRow "w.md" (some "2026-01-05")) [sampleRow "w.md" none]
    (by decide) (by decide)
  exact ⟨h.1.trans (by decide), h.2⟩

/-! ## Claim C6: idempotence of `upsertUpdate` -/

/-- C6.  Applying `upsertUpdate` twice with the identical record leaves
exactly the state after one application, and (when the table held at most
one row under the key, as the `UNIQUE` constraint guarantees) exactly one
row is stored under the record's key. -/
theorem upsertUpdate_idempotent (tbl : List UpdateRow) (u : UpdateRow) :
    upsertUpdate (upsertUpdate tbl u) u = upsertUpdate tbl u
    ∧ (countKey tbl u.filePath ≤ 1 → countKey (upsertUpdate tbl u) u.filePath = 1) := by
  constructor
  · by_cases hany : tbl.any (fun r => r.filePath == u.filePath) = true
    · have h1 : upsertUpdate tbl u
          = tbl.map (fun r => if r.filePath == u.filePath then applyUpsertClause r u else r) := by
        simp [upsertUpdate, hany]
      have h2 : (upsertUpdate tbl u).any (fun r => r.filePath == u.filePath) = true := by
        rw [h1, any_key_map_upsert]; exact hany
      rw [h1] at h2 ⊢
      simp only [upsertUpdate, h2, if_true, List.map_map]
      apply List.map_congr_left
      intro r _
      by_cases hr : r.filePath == u.filePath
      · simp [Function.comp, hr, applyUpsertClause_filePath,
          (by simpa using hr : r.filePath = u.filePath),
          applyUpsertClause_applyUpsertClause]
      · simp [Function.comp, hr]
    · have hfalse : tbl.any (fun r => r.filePath == u.filePath) = false := by
        simpa using hany
      have h1 : upsertUpdate tbl u = tbl ++ [u] := by simp [upsertUpdate, hfalse]
      have h2 : (tbl ++ [u]).any (fun r => r.filePath == u.filePath) = true := by
        simp [List.any_append]
      rw [h1]
      simp only [upsertUpdate, h2, if_true, List.map_append]
      have h3 : tbl.map (fun r => if r.filePath == u.filePath then applyUpsertClause r u else r)
          = tbl := by
        have hall : ∀ r ∈ tbl, (r.filePath == u.filePath) = false := by
          intro r hr
          by_contra hc
          have : tbl.any (fun r => r.filePath == u.filePath) = true :=
            List.any_eq_true.2 ⟨r, hr, by simpa using hc⟩
          rw [this] at hfalse; cases hfalse

        calc tbl.map (fun r => if r.filePath == u.filePath then applyUpsertClause r u else r)
            = tbl.map id := by
              apply List.map_congr_left
              intro r hr
              simp [hall r hr]
          _ = tbl := List.map_id tbl
      rw [h3]
      simp [applyUpsertClause_self]
  · intro hle
    by_cases hany : tbl.any (fun r => r.filePath == u.filePath) = true
    · have hpos : 0 < countKey tbl u.filePath := by
        rcases List.any_eq_true.1 hany with ⟨r, hmem, hpred⟩
        exact List.countP_pos_iff.2 ⟨r, hmem, hpred⟩
      have : countKey tbl u.filePath = 1 := by omega
      rw [countKey_upsertUpdate_hit tbl u hany u.filePath]
      exact this
    · have hfalse : tbl.any (fun r => r.filePath == u.filePath) = false := by
        simpa using hany
      have h1 : upsertUpdate tbl u = tbl ++ [u] := by simp [upsertUpdate, hfalse]
      rw [h1]
      simp only [countKey, List.countP_append]
      have h0 : tbl.countP (fun r => r.filePath == u.filePath) = 0 := by
        apply List.countP_eq_zero.2
        intro r hr
        by_contra hc
        have : tbl.any (fun r => r.filePath == u.filePath) = true :=
          List.any_eq_true.2 ⟨r, hr, by simpa using hc⟩
        rw [this] at hfalse; cases hfalse
      rw [h0]
      simp

/-- C6 witness: inserting one concrete record twice. -/
theorem upsertUpdate_idempotent_witness :
    upsertUpdate (upsertUpdate [] (sampleRow "a.md" none)) (sampleRow "a.md" none)
        = upsertUpdate [] (sampleRow "a.md" none)
    ∧ countKey (upsertUpdate [] (sampleRow "a.md" none))
        (sampleRow "a.md" none).filePath = 1 :=
  ⟨(upsertUpdate_idempotent [] (sampleRow "a.md" none)).1,
    (upsertUpdate_idempotent [] (sampleRow "a.md" none)).2 (by decide)⟩

/-! ## Claim C10: `updateCommitDate` and SQL `LIKE`

`updateCommitDate` runs
`UPDATE powerplat_updates SET commit_date = ?, commit_sha = ? WHERE
file_path LIKE ?` with the pattern `'%' + filePath`.  SQLite's `LIKE` is
modeled with its default semantics: `%` matches any sequence, `_` any
single character, and plain characters compare ASCII-case-insensitively. -/

/-- ASCII lower-casing, as SQLite's default `LIKE` applies to `A`–`Z`. -/
def asciiLower (c : Char) : Char :=
  if 65 ≤ c.toNat ∧ c.toNat ≤ 90 then Char.ofNat (c.toNat + 32) else c

/-- Plain-character comparison under SQLite `LIKE`. -/
def likeCharEq (p c : Char) : Bool := asciiLower p == asciiLower c

/-- SQLite `LIKE` pattern matching (default, ASCII-case-insensitive).
`%` matches any (possibly empty) sequence, `_` exactly one character. -/
def likeMatch : List Char → List Char → Bool
  | [], s => s.isEmpty
  | a :: ps, s =>
      if a = '%' then s.tails.any (fun t => likeMatch ps t)
      else
        match s with
        | [] => false
        | c :: s₂ => if a = '_' then likeMatch ps s₂ else likeCharEq a c && likeMatch ps s₂

/-- `updateCommitDate` (`queries.ts`): sets `commit_date` and `commit_sha`
on every row whose `file_path` matches `LIKE '%' || filePath`. -/
def updateCommitDate (tbl : List UpdateRow) (filePath commitDate commitSha : String) :
    List UpdateRow :=
  tbl.map fun r =>
    if likeMatch ('%' :: filePath.data) r.filePath.data then
      { r with commitDate := some commitDate, commitSha := some commitSha }
    else r

theorem likeMatch_no_wildcards (p : List Char)
    (hp : ∀ c ∈ p, c ≠ '%' ∧ c ≠ '_') (s : List Char) :
    likeMatch p s = true ↔ p.map asciiLower = s.map asciiLower := by
  induction p generalizing s with
  | nil =>
    cases s <;> simp [likeMatch]
  | cons a ps ih =>
    have ha := hp a (by simp)
    cases s with
    | nil => simp [likeMatch, ha.1]
    | cons c s₂ =>
      simp only [likeMatch, if_neg ha.1, if_neg ha.2, List.map_cons,
        Bool.and_eq_true, List.cons.injEq]
      rw [ih (fun x hx => hp x (by simp [hx]))]
      simp [likeCharEq]

/-- For a wildcard-free pattern, `LIKE '%' || p` is exactly
(case-insensitive) suffix matching. -/
theorem likeMatch_percent_iff (p : List Char)
    (hp : ∀ c ∈ p, c ≠ '%' ∧ c ≠ '_') (s : List Char) :
    likeMatch ('%' :: p) s = true ↔ (p.map asciiLower) <:+ (s.map asciiLower) := by
  rw [show likeMatch ('%' :: p) s = s.tails.any (fun t => likeMatch p t) from rfl,
    List.any_eq_true]
  constructor
  · rintro ⟨t, ht, hm⟩
    have hsuf : t <:+ s := (List.mem_tails t s).1 ht
    rw [(likeMatch_no_wildcards p hp t).1 hm]
    exact hsuf.map asciiLower
  · intro hsuf
    rcases hsuf with ⟨u, hu⟩
    rcases List.map_eq_append_iff.1 hu.symm with ⟨s₁, s₂, hs, _, hmap2⟩
    exact ⟨s₂, (List.mem_tails s₂ s).2 ⟨s₁, hs.symm⟩,
      (likeMatch_no_wildcards p hp s₂).2 hmap2.symm⟩

/-- C10, counterexample.  The claim reads the `LIKE '%' || filePath`
match as plain "ends with `filePath`".  With `filePath = "_b.md"`, the
stored path `"ab.md"` does not end with `"_b.md"`, yet the `_` wildcard
makes the row match, and its `commit_date`/`commit_sha` are rewritten. -/
theorem updateCommitDate_not_literal_suffix :
    ¬ ("_b.md".data <:+ "ab.md".data)
    ∧ (sampleRow "ab.md" none).commitDate = none
    ∧ updateCommitDate [sampleRow "ab.md" none] "_b.md" "2026-03-01" "sha9"
        = [{ sampleRow "ab.md" none with
              commitDate := some "2026-03-01", commitSha := some "sha9" }] := by
  refine ⟨by decide, rfl, by decide⟩

/-- C10, amended.  `updateCommitDate` rewrites exactly `commit_date` and
`commit_sha` of the rows whose `file_path` matches the SQLite `LIKE`
pattern `'%' || filePath`, and leaves every other row and every other
column unchanged; when `filePath` contains neither `%` nor `_`, the
matched rows are exactly those whose `file_path` ends with `filePath` up
to ASCII case. -/
theorem updateCommitDate_suffix_like (tbl : List UpdateRow) (fp cd cs : String)
    (hw : ∀ c ∈ fp.data, c ≠ '%' ∧ c ≠ '_') :
    updateCommitDate tbl fp cd cs
      = tbl.map (fun r =>
          if (fp.data.map asciiLower) <:+ (r.filePath.data.map asciiLower) then
            { r with commitDate := some cd, commitSha := some cs }
          else r) := by
  unfold updateCommitDate
  apply List.map_congr_left
  intro r _
  by_cases h : (fp.data.map asciiLower) <:+ (r.filePath.data.map asciiLower)
  · rw [if_pos ((likeMatch_percent_iff fp.data hw r.filePath.data).2 h), if_pos h]
  · rw [if_neg (fun hc => h ((likeMatch_percent_iff fp.data hw r.filePath.data).1 hc)),
      if_neg h]

/-- C10 witness: a wildcard-free suffix pattern on a two-row table. -/
theorem updateCommitDate_suffix_like_witness :
    updateCommitDate [sampleRow "docs/a/new.md" none, sampleRow "docs/b/old.md" none]
        "new.md" "2026-03-02" "shaw"
      = [{ sampleRow "docs/a/new.md" none with
            commitDate := some "2026-03-02", commitSha := some "shaw" },
          sampleRow "docs/b/old.md" none] := by
  have h := updateCommitDate_suffix_like
    [sampleRow "docs/a/new.md" none, sampleRow "docs/b/old.md" none]
    "new.md" "2026-03-02" "shaw" (by decide)
  rw [h]
  decide

/-! ## Claim C4: `githubFetch` retry behavior

`githubFetch` loops `attempt = 1 .. MAX_RETRIES`, `fetch`ing once per
attempt.  The whole body — including the `403` rate-limit check — sits
inside the `try`, and the `catch` retries (after `RETRY_DELAY_MS *
attempt` ms) unless the attempt was the last.  An attempt outcome is the
remote's behavior for that attempt; `HTTP` statuses outside 200–299 are
`!response.ok`. -/

inductive AttemptOutcome where
  | netError
  | response (status : Nat) (rateLimitReset : Option String)
deriving Repr, DecidableEq

inductive GHError where
  | rateLimited (reset : Option String)
  | apiError (status : Nat)
  | network
deriving Repr, DecidableEq

def MAX_RETRIES : Nat := 3

def RETRY_DELAY_MS : Nat := 1000

/-- One loop body of `githubFetch`: `403` throws the rate-limit error
(carrying the `X-RateLimit-Reset` header when present), any other
non-2xx status throws `GitHub API error`, a network failure throws, a
2xx response returns. -/
def attemptResult (o : AttemptOutcome) : Except GHError Unit :=
  match o with
  | .netError => .error .network
  | .response s reset =>
      if s = 403 then .error (.rateLimited reset)
      else if 200 ≤ s ∧ s ≤ 299 then .ok ()
      else .error (.apiError s)

/-- Observable outcome of `githubFetch`: final result, number of `fetch`
calls made, and the backoff delays slept between attempts. -/
structure FetchOut where
  result : Except GHError Unit
  attempts : Nat
  delays : List Nat
deriving Repr

/-- The retry loop of `githubFetch`.  `fuel` is the number of loop
iterations left (`MAX_RETRIES` at entry, so it never runs out before the
`attempt = MAX_RETRIES` exit). -/
def githubFetchGo (env : Nat → AttemptOutcome) (attempt fuel : Nat) : FetchOut :=
  match fuel with
  | 0 => ⟨.error .network, 0, []⟩
  | fuel' + 1 =>
      match attemptResult (env attempt) with
      | .ok () => ⟨.ok (), 1, []⟩
      | .error e =>
          if attempt = MAX_RETRIES then ⟨.error e, 1, []⟩
          else
            let rest := githubFetchGo env (attempt + 1) fuel'
            ⟨rest.result, rest.attempts + 1, RETRY_DELAY_MS * attempt :: rest.delays⟩

/-- `githubFetch`, with the per-attempt remote behavior passed in. -/
def githubFetch (env : Nat → AttemptOutcome) : FetchOut :=
  githubFetchGo env 1 MAX_RETRIES

/-- A run whose first attempt is rate-limited and whose second succeeds. -/
def envRateLimitedOnce : Nat → AttemptOutcome :=
  fun i => if i = 1 then .response 403 (some "1772150400") else .response 200 none

/-- C4, counterexample.  The claim states a 403 propagates immediately
without consuming retries.  In the code the 403 throw happens inside the
`try`, so it is caught and retried like a transient failure: with a 403
on attempt 1 and a 200 on attempt 2, `githubFetch` returns success after
2 fetches and one backoff delay — no rate-limit error is propagated. -/
theorem githubFetch_retries_rate_limit :
    envRateLimitedOnce 1 = .response 403 (some "1772150400")
    ∧ githubFetch envRateLimitedOnce = ⟨.ok (), 2, [1000]⟩ := by
  refine ⟨rfl, rfl⟩

/-- C4, amended.  A 403 response is retried like any other failure, up to
`MAX_RETRIES = 3` attempts with increasing delays `1000·attempt` ms; only
when the final attempt also returns 403 does the rate-limit error
propagate, carrying the reset header value when the response provides
one. -/
theorem githubFetch_rate_limit_after_retries (env : Nat → AttemptOutcome)
    (r : Option String)
    (h : ∀ i, 1 ≤ i → i ≤ MAX_RETRIES → env i = .response 403 r) :
    githubFetch env
      = ⟨.error (.rateLimited r), MAX_RETRIES, [RETRY_DELAY_MS * 1, RETRY_DELAY_MS * 2]⟩ := by
  have h1 := h 1 (by omega) (by simp [MAX_RETRIES])
  have h2 := h 2 (by omega) (by simp [MAX_RETRIES])
  have h3 := h 3 (by omega) (by simp [MAX_RETRIES])
  simp [githubFetch, MAX_RETRIES, githubFetchGo, h1, h2, h3, attemptResult,
    RETRY_DELAY_MS]

/-- C4 witness: every attempt rate-limited with a concrete reset time. -/
theorem githubFetch_rate_limit_after_retries_witness :
    githubFetch (fun _ => .response 403 (some "1772150400"))
      = ⟨.error (.rateLimited (some "1772150400")), 3, [1000, 2000]⟩ := by
  have h := githubFetch_rate_limit_after_retries
    (fun _ => .response 403 (some "1772150400")) (some "1772150400")
    (fun _ _ _ => rfl)
  simpa [MAX_RETRIES, RETRY_DELAY_MS] using h

/-! ## Claim C8: truncated repository trees

`getRepositoryTree` parses the tree response and, when `data.truncated`
is set, only logs a warning (`logger.warn`) before returning `data.tree`
unchanged; `getWhatsNewFiles` then filters that (partial) tree like any
other.  The model returns the `Except` outcome paired with whether the
truncation warning fired. -/

structure GitHubTreeItem where
  path : String
  type : String
  sha : String
deriving Repr, DecidableEq

structure GitHubTreeResponse where
  tree : List GitHubTreeItem
  truncated : Bool
deriving Repr, DecidableEq

/-- `getRepositoryTree` on a fetched-and-parsed response: errors from
`githubFetch` propagate; an `ok` response yields its `tree` array whether
or not `truncated` is set (second component: the warning fired). -/
def getRepositoryTree (fetched : Except GHError GitHubTreeResponse) :
    Except GHError (List GitHubTreeItem) × Bool :=
  match fetched with
  | .error e => (.error e, false)
  | .ok d => (.ok d.tree, d.truncated)

/-- Substring test (JS `String.includes`). -/
def containsSub (needle hay : List Char) : Bool :=
  hay.tails.any (fun t => needle.isPrefixOf t)

/-- `isWhatsNewFile` (`githubClient.ts`): the lower-cased path contains
one of the what's-new markers.  (JS `toLowerCase` restricted to ASCII,
which covers the repository paths involved.) -/
def isWhatsNewFile (path : String) : Bool :=
  let lowerPath := path.data.map asciiLower
  containsSub "whats-new".data lowerPath
    || containsSub "what-s-new".data lowerPath
    || containsSub "release-notes".data lowerPath
    || containsSub "new-features".data lowerPath
    || containsSub "updates".data lowerPath

structure RepoConfig where
  owner : String
  repo : String
  branch : String
  basePath : String
deriving Repr, DecidableEq

/-- A candidate file as carried through the sync: its repository path and
its blob SHA (the change token). -/
structure SyncFile where
  path : String
  sha : String
deriving Repr, DecidableEq

/-- The per-repository body of `getWhatsNewFiles`: on a tree-fetch error
the `catch` logs and contributes no files; on success the tree — partial
or not — is filtered down to markdown what's-new blobs under `basePath`. -/
def repoWhatsNewFiles (cfg : RepoConfig)
    (treeResult : Except GHError (List GitHubTreeItem)) : List SyncFile :=
  match treeResult with
  | .error _ => []
  | .ok tree =>
      (tree.filter (fun item =>
          item.type == "blob" && ".md".data.isSuffixOf item.path.data
            && cfg.basePath.data.isPrefixOf item.path.data
            && isWhatsNewFile item.path)).map
        (fun item => { path := item.path, sha := item.sha })

/-- A truncated tree response carrying one matching file. -/
def truncResp : GitHubTreeResponse :=
  { tree := [{ path := "power-platform/admin/whats-new.md", type := "blob", sha := "abc" }]
    truncated := true }

def cfgPP : RepoConfig :=
  { owner := "MicrosoftDocs", repo := "power-platform", branch := "main"
    basePath := "power-platform" }

/-- C8, counterexample.  A truncated listing is not surfaced as a
distinct failure: `getRepositoryTree` returns `Except.ok` with the
partial tree (warning only), and the orchestrator's per-repository step
processes it as a normal listing, producing candidate files. -/
theorem getRepositoryTree_truncated_not_failure :
    truncResp.truncated = true
    ∧ (getRepositoryTree (.ok truncResp)).1 = Except.ok truncResp.tree
    ∧ repoWhatsNewFiles cfgPP (getRepositoryTree (.ok truncResp)).1
        = [{ path := "power-platform/admin/whats-new.md", sha := "abc" }] := by
  refine ⟨rfl, rfl, by decide⟩

/-- C8, amended.  On a truncated response the adapter fires the warning
but still returns the partial listing as a success, which the
orchestrator consumes like a complete listing. -/
theorem getRepositoryTree_truncated_warns (resp : GitHubTreeResponse)
    (h : resp.truncated = true) :
    getRepositoryTree (Except.ok resp) = (Except.ok resp.tree, true) := by
  simp [getRepositoryTree, h]

/-- C8 witness: the concrete truncated response. -/
theorem getRepositoryTree_truncated_warns_witness :
    getRepositoryTree (Except.ok truncResp) = (Except.ok truncResp.tree, true) :=
  getRepositoryTree_truncated_warns truncResp rfl

/-! ## The article extractor: `normalizeDateToISO` and `parseFrontmatter`

The JS regexes are modeled over `List Char`.  `\s` is the ASCII
whitespace class; the multiline `^...$` field patterns are modeled
line-by-line (a `\s*` crossing a line break inside a field line is a
degenerate case not exercised here).  The frontmatter block pattern
`^---\s*\n([\s\S]*?)\n---` (a regex anchored at content start) is modeled with its backtracking order:
longest whitespace run first, then the shortest body. -/

/-- ASCII whitespace (the ASCII part of the JS `\s` class). -/
def isWsChar (c : Char) : Bool :=
  c == ' ' || c == '\t' || c == '\n' || c == '\r' || c == '\x0b' || c == '\x0c'

/-- Greedy digit span (`\d*` with a following non-digit, as used by the
anchored groups below). -/
def takeDigits : List Char → List Char × List Char
  | [] => ([], [])
  | c :: cs =>
      if c.isDigit then
        let r := takeDigits cs
        (c :: r.1, r.2)
      else ([], c :: cs)

/-- JS `padStart(2, "0")`. -/
def padStart2 (l : List Char) : List Char :=
  List.replicate (2 - l.length) '0' ++ l

/-- The anchored regex `^(\d{1,2})\/(\d{1,2})\/(\d{4})$` of
`normalizeDateToISO`. -/
def mdyFullMatch (l : List Char) : Option (List Char × List Char × List Char) :=
  let mr := takeDigits l
  if 1 ≤ mr.1.length ∧ mr.1.length ≤ 2 then
    match mr.2 with
    | '/' :: r2 =>
        let dr := takeDigits r2
        if 1 ≤ dr.1.length ∧ dr.1.length ≤ 2 then
          match dr.2 with
          | '/' :: r4 =>
              let yr := takeDigits r4
              if yr.1.length = 4 ∧ yr.2 = [] then some (mr.1, dr.1, yr.1) else none
          | _ => none
        else none
    | _ => none
  else none

/-- The anchored regex `^\d{4}-\d{2}-\d{2}$` of `normalizeDateToISO`. -/
def isoFullMatch (l : List Char) : Bool :=
  match l with
  | [y1, y2, y3, y4, '-', m1, m2, '-', d1, d2] =>
      y1.isDigit && y2.isDigit && y3.isDigit && y4.isDigit
        && m1.isDigit && m2.isDigit && d1.isDigit && d2.isDigit
  | _ => false

/-- `normalizeDateToISO` (`githubClient.ts`): `MM/DD/YYYY` (1–2 digit
month/day) becomes `YYYY-MM-DD` with zero-padding; a string already in
`YYYY-MM-DD` is returned as is; any other string is returned as is. -/
def normalizeDateToISO (s : String) : String :=
  match mdyFullMatch s.data with
  | some (m, d, y) => String.mk (y ++ '-' :: padStart2 m ++ '-' :: padStart2 d)
  | none =>
      if isoFullMatch s.data then s
      else s

/-- The `\d{1,2}\/\d{1,2}\/\d{4}` alternative of the frontmatter date
regex, matched as a prefix (the pattern is not `$`-anchored). -/
def mdyTokenAt (l : List Char) : Option (List Char) :=
  let mr := takeDigits l
  if 1 ≤ mr.1.length ∧ mr.1.length ≤ 2 then
    match mr.2 with
    | '/' :: r2 =>
        let dr := takeDigits r2
        if 1 ≤ dr.1.length ∧ dr.1.length ≤ 2 then
          match dr.2 with
          | '/' :: a :: b :: c :: e :: _ =>
              if a.isDigit && b.isDigit && c.isDigit && e.isDigit then
                some (mr.1 ++ '/' :: dr.1 ++ '/' :: [a, b, c, e])
              else none
          | _ => none
        else none
    | _ => none
  else none

/-- The `\d{4}-\d{2}-\d{2}` alternative of the frontmatter date regex,
matched as a prefix. -/
def isoTokenAt (l : List Char) : Option (List Char) :=
  match l with
  | y1 :: y2 :: y3 :: y4 :: '-' :: m1 :: m2 :: '-' :: d1 :: d2 :: _ =>
      if y1.isDigit && y2.isDigit && y3.isDigit && y4.isDigit
          && m1.isDigit && m2.isDigit && d1.isDigit && d2.isDigit then
        some [y1, y2, y3, y4, '-', m1, m2, '-', d1, d2]
      else none
  | _ => none

/-- The alternation `(\d{1,2}\/\d{1,2}\/\d{4}|\d{4}-\d{2}-\d{2})`,
alternatives tried left to right. -/
def dateTokenAt (l : List Char) : Option (List Char) :=
  match mdyTokenAt l with
  | some t => some t
  | none => isoTokenAt l

/-- Split on a separator character, keeping empty segments (used for line
splitting and for JS `String.split`). -/
def splitOnChar (sep : Char) : List Char → List (List Char)
  | [] => [[]]
  | c :: cs =>
      if c = sep then [] :: splitOnChar sep cs
      else
        match splitOnChar sep cs with
        | [] => [[c]]
        | h :: t => (c :: h) :: t

/-- The lines of a string, as the multiline `^` anchors see them. -/
def splitLines (l : List Char) : List (List Char) :=
  splitOnChar '\n' l

/-- The frontmatter date line `/^(?:ms\.)?date:\s*(...)/`: optional
`ms.` prefix, `date:`, whitespace, then the date alternation as a
prefix of the rest of the line. -/
def lineDateValue (line : List Char) : Option (List Char) :=
  if "ms.date:".data.isPrefixOf line then
    dateTokenAt ((line.drop 8).dropWhile (fun c => isWsChar c))
  else if "date:".data.isPrefixOf line then
    dateTokenAt ((line.drop 5).dropWhile (fun c => isWsChar c))
  else none

/-- The date component stored by `parseFrontmatter` for one line:
the matched token, normalized. -/
def lineDateNormalized (line : List Char) : Option String :=
  (lineDateValue line).map (fun t => normalizeDateToISO (String.mk t))

def quoteDouble : Char := Char.ofNat 34

def quoteSingle : Char := Char.ofNat 39

def isQuoteChar (c : Char) : Bool := c == quoteDouble || c == quoteSingle

/-- JS `String.trim` (ASCII whitespace). -/
def jsTrim (l : List Char) : List Char :=
  ((l.dropWhile (fun c => isWsChar c)).reverse.dropWhile (fun c => isWsChar c)).reverse

/-- A field line `/^field:\s*["']?(.+?)["']?\s*$/`: whitespace then an
optional opening quote, a lazily-minimal non-empty capture, an optional
closing quote and trailing whitespace.  The capture is the value with an
optional surrounding quote pair stripped; a capture that would become
empty backtracks to keep the quote character itself. -/
def lineFieldValue (field : List Char) (line : List Char) : Option (List Char) :=
  if field.isPrefixOf line then
    let r1 := (line.drop field.length).dropWhile (fun c => isWsChar c)
    let r2 :=
      match r1 with
      | c :: cs => if isQuoteChar c then cs else r1
      | [] => []
    let r3 := (r2.reverse.dropWhile (fun c => isWsChar c)).reverse
    let r4 :=
      match r3.getLast? with
      | some c => if isQuoteChar c then r3.dropLast else r3
      | none => r3
    if r4 ≠ [] then some r4
    else if r3 ≠ [] then some r3
    else none
  else none

/-- The heading fallback `/^#\s+(.+)/m`: a line starting with `#`
followed by at least one whitespace character and at least one further
character; the capture (before `trim`) starts after the whitespace run. -/
def lineHeadingValue (line : List Char) : Option (List Char) :=
  match line with
  | '#' :: rest =>
      match rest with
      | c :: _ =>
          if isWsChar c ∧ 2 ≤ rest.length then
            some (rest.dropWhile (fun x => isWsChar x))
          else none
      | [] => none
  | _ => none

/-- Index of the first occurrence of the closing delimiter `\n---`. -/
def findDelim : List Char → Option Nat
  | [] => none
  | l@(_ :: cs) =>
      if "\n---".data.isPrefixOf l then some 0
      else (findDelim cs).map (fun n => n + 1)

/-- Positions of `\n` inside the leading whitespace run (the candidate
split points of `\s*\n`, to be tried longest-`\s*` first). -/
def nlPrefixPositions : List Char → List Nat
  | [] => []
  | c :: cs =>
      if isWsChar c then
        if c = '\n' then 0 :: (nlPrefixPositions cs).map (· + 1)
        else (nlPrefixPositions cs).map (· + 1)
      else []

/-- Try the candidate `\s*\n` split points in the given order; for each,
the lazy body is everything up to the first `\n---` afterwards. -/
def tryNlSplits (rest : List Char) : List Nat → Option (List Char)
  | [] => none
  | j :: js =>
      match findDelim (rest.drop (j + 1)) with
      | some i => some ((rest.drop (j + 1)).take i)
      | none => tryNlSplits rest js

/-- The frontmatter block regex `^---\s*\n([\s\S]*?)\n---` (a regex anchored at content start), anchored at
the start of the content. -/
def frontmatterBlock (content : List Char) : Option (List Char) :=
  match content with
  | '-' :: '-' :: '-' :: rest => tryNlSplits rest (nlPrefixPositions rest).reverse
  | _ => none

structure Frontmatter where
  title : Option String
  description : Option String
  date : Option String
deriving Repr, DecidableEq

/-- `parseFrontmatter` (`githubClient.ts`).  Without a frontmatter block
the title falls back to the first `#` heading line; with one, `title`,
`description` and `date` are extracted from its lines, the date
normalized by `normalizeDateToISO`. -/
def parseFrontmatter (content : String) : Frontmatter :=
  match frontmatterBlock content.data with
  | none =>
      { title := ((splitLines content.data).findSome? lineHeadingValue).map
          (fun v => String.mk (jsTrim v))
        description := none
        date := none }
  | some fm =>
      let lines := splitLines fm
      { title := (lines.findSome? (lineFieldValue "title:".data)).map
          (fun v => String.mk (jsTrim v))
        description := (lines.findSome? (lineFieldValue "description:".data)).map
          (fun v => String.mk (jsTrim v))
        date := lines.findSome? lineDateNormalized }

/-- JS `String.includes`. -/
def strIncludes (hay needle : String) : Bool :=
  containsSub needle.data hay.data

/-- `PRODUCT_MAPPING` (`types.ts`), in object-literal order (the order
`Object.entries` iterates). -/
def PRODUCT_MAPPING : List (String × String) :=
  [("power-platform", "Power Platform"),
   ("admin", "Power Platform Admin"),
   ("alm", "Power Platform ALM"),
   ("guidance", "Power Platform Guidance"),
   ("powerapps", "Power Apps"),
   ("canvas-apps", "Power Apps (Canvas)"),
   ("model-driven-apps", "Power Apps (Model-driven)"),
   ("cards-overview", "Power Apps Cards"),
   ("maker", "Power Apps Maker"),
   ("developer", "Power Apps Developer"),
   ("power-automate", "Power Automate"),
   ("desktop-flows", "Power Automate Desktop"),
   ("cloud-flows", "Power Automate Cloud"),
   ("process-mining", "Power Automate Process Mining"),
   ("power-bi", "Power BI"),
   ("paginated-reports", "Power BI Paginated Reports"),
   ("power-pages", "Power Pages"),
   ("dataverse", "Dataverse"),
   ("copilot-studio", "Copilot Studio"),
   ("power-virtual-agents", "Copilot Studio"),
   ("ai-builder", "AI Builder"),
   ("power-fx", "Power Fx"),
   ("powerquery", "Power Query"),
   ("power-query", "Power Query"),
   ("m365copilot", "Microsoft 365 Copilot"),
   ("copilot-extensibility", "Microsoft 365 Copilot"),
   ("copilot-connectors", "Copilot Connectors"),
   ("developer-tools", "Power Platform Developer Tools")]

/-- `inferProduct` (`githubClient.ts`). -/
def inferProduct (filePath repoName : String) : String :=
  let lowerPath := String.mk (filePath.data.map asciiLower)
  if strIncludes repoName "powerapps" then
    if strIncludes lowerPath "canvas" then "Power Apps (Canvas)"
    else if strIncludes lowerPath "model-driven" then "Power Apps (Model-driven)"
    else "Power Apps"
  else if strIncludes repoName "power-automate" then
    if strIncludes lowerPath "desktop" then "Power Automate Desktop"
    else if strIncludes lowerPath "process-mining" then "Power Automate Process Mining"
    else "Power Automate"
  else if strIncludes repoName "powerbi" then "Power BI"
  else if strIncludes repoName "power-pages" then "Power Pages"
  else if strIncludes repoName "power-virtual-agents"
      || strIncludes repoName "copilot-studio" then "Copilot Studio"
  else if strIncludes repoName "ai-builder" then "AI Builder"
  else
    match PRODUCT_MAPPING.find? (fun p => strIncludes lowerPath p.1) with
    | some p => p.2
    | none => "Power Platform"

/-- JS `String.replace` with a string pattern: first occurrence only. -/
def replaceFirst : List Char → List Char → List Char → List Char
  | [], pat, rep => if pat.isPrefixOf ([] : List Char) then rep else []
  | s@(c :: cs), pat, rep =>
      if pat.isPrefixOf s then rep ++ s.drop pat.length
      else c :: replaceFirst cs pat rep

/-- The display URL derived in `fetchAndParseFile`. -/
def fileUrlFromRaw (rawUrl : String) : String :=
  String.mk (replaceFirst
    (replaceFirst rawUrl.data "raw.githubusercontent.com".data "github.com".data)
    "/main/".data "/blob/main/".data)

/-- The pure part of `fetchAndParseFile`: given the fetched content, the
record written for the file.  The title falls back to the last path
segment (`filePath.split("/").pop()`), then `"Unknown"`. -/
def buildUpdateRecord (content filePath repoName rawUrl : String) : UpdateRow :=
  let metadata := parseFrontmatter content
  { filePath := filePath
    title := metadata.title.getD
      ((((splitOnChar '/' filePath.data).getLast?).map String.mk).getD "Unknown")
    description := metadata.description
    product := inferProduct filePath repoName
    releaseDate := metadata.date
    commitSha := none
    commitDate := none
    firstCommitDate := none
    fileUrl := fileUrlFromRaw rawUrl
    rawContentUrl := rawUrl }

/-! ## Claim C7: date normalization -/

theorem isWsChar_eq_false_of_isDigit (c : Char) (h : c.isDigit = true) :
    isWsChar c = false := by
  by_contra hc
  have hws : isWsChar c = true := by
    revert hc; cases isWsChar c <;> simp
  simp only [isWsChar, Bool.or_eq_true, beq_iff_eq] at hws
  rcases hws with ((((rfl | rfl) | rfl) | rfl) | rfl) | rfl <;> exact absurd h (by decide)

/-- C7, counterexample.  `2026-03-05T00:00:00Z` is in neither recognized
format (`MM/DD/YYYY` nor `YYYY-MM-DD`), yet the frontmatter date regex is
not end-anchored: its `YYYY-MM-DD` prefix matches, so the field is stored
as `2026-03-05` rather than being dropped. -/
theorem parseFrontmatter_datetime_not_dropped :
    mdyFullMatch "2026-03-05T00:00:00Z".data = none
    ∧ isoFullMatch "2026-03-05T00:00:00Z".data = false
    ∧ (parseFrontmatter "---\ndate: 2026-03-05T00:00:00Z\n---\nbody").date
        = some "2026-03-05" := by
  refine ⟨by decide, by decide, by decide⟩

/-- C7, amended.  For any calendar date (digits `m1m2/d1d2/y1y2y3y4`),
the `MM/DD/YYYY` form — two-digit or one-digit month/day — and the
`YYYY-MM-DD` form normalize to the identical `YYYY-MM-DD` string, both
directly through `normalizeDateToISO` and through the frontmatter date
line; a date value that does not *begin* with either recognized pattern
is dropped (the field is left absent), while a value that begins with one
stores the matched prefix. -/
theorem date_two_formats_normalize_equal
    (m1 m2 d1 d2 y1 y2 y3 y4 : Char)
    (hm1 : m1.isDigit = true) (hm2 : m2.isDigit = true)
    (hd1 : d1.isDigit = true) (hd2 : d2.isDigit = true)
    (hy1 : y1.isDigit = true) (hy2 : y2.isDigit = true)
    (hy3 : y3.isDigit = true) (hy4 : y4.isDigit = true) :
    normalizeDateToISO (String.mk [m1, m2, '/', d1, d2, '/', y1, y2, y3, y4])
        = String.mk [y1, y2, y3, y4, '-', m1, m2, '-', d1, d2]
    ∧ normalizeDateToISO (String.mk [m2, '/', d2, '/', y1, y2, y3, y4])
        = String.mk [y1, y2, y3, y4, '-', '0', m2, '-', '0', d2]
    ∧ normalizeDateToISO (String.mk [y1, y2, y3, y4, '-', m1, m2, '-', d1, d2])
        = String.mk [y1, y2, y3, y4, '-', m1, m2, '-', d1, d2]
    ∧ lineDateNormalized ("date: ".data ++ [m1, m2, '/', d1, d2, '/', y1, y2, y3, y4])
        = some (String.mk [y1, y2, y3, y4, '-', m1, m2, '-', d1, d2])
    ∧ lineDateNormalized ("date: ".data ++ [y1, y2, y3, y4, '-', m1, m2, '-', d1, d2])
        = some (String.mk [y1, y2, y3, y4, '-', m1, m2, '-', d1, d2])
    ∧ (∀ v : List Char, dateTokenAt (v.dropWhile (fun c => isWsChar c)) = none →
        lineDateValue ("date:".data ++ v) = none) := by
  have hslash : ('/' : Char).isDigit = false := by decide
  have hdash : ('-' : Char).isDigit = false := by decide
  have hwm1 := isWsChar_eq_false_of_isDigit m1 hm1
  have hwm2 := isWsChar_eq_false_of_isDigit m2 hm2
  have hwy1 := isWsChar_eq_false_of_isDigit y1 hy1
  have hmdy2 : normalizeDateToISO (String.mk [m1, m2, '/', d1, d2, '/', y1, y2, y3, y4])
      = String.mk [y1, y2, y3, y4, '-', m1, m2, '-', d1, d2] := by
    simp [normalizeDateToISO, mdyFullMatch, takeDigits, padStart2,
      hm1, hm2, hd1, hd2, hy1, hy2, hy3, hy4, hslash]
  have hmdy1 : normalizeDateToISO (String.mk [m2, '/', d2, '/', y1, y2, y3, y4])
      = String.mk [y1, y2, y3, y4, '-', '0', m2, '-', '0', d2] := by
    simp [normalizeDateToISO, mdyFullMatch, takeDigits, padStart2,
      hm2, hd2, hy1, hy2, hy3, hy4, hslash]
  have hiso : normalizeDateToISO (String.mk [y1, y2, y3, y4, '-', m1, m2, '-', d1, d2])
      = String.mk [y1, y2, y3, y4, '-', m1, m2, '-', d1, d2] := by
    simp [normalizeDateToISO, mdyFullMatch, takeDigits,
      hy1, hy2, hy3, hy4, hdash]
  refine ⟨hmdy2, hmdy1, hiso, ?_, ?_, ?_⟩
  · have hsp : isWsChar ' ' = true := by decide
    have htok : lineDateValue
          ['d', 'a', 't', 'e', ':', ' ', m1, m2, '/', d1, d2, '/', y1, y2, y3, y4]
        = some [m1, m2, '/', d1, d2, '/', y1, y2, y3, y4] := by
      simp [lineDateValue, List.isPrefixOf, dateTokenAt, mdyTokenAt, takeDigits,
        hm1, hm2, hd1, hd2, hy1, hy2, hy3, hy4, hslash, hwm1, hsp]
    simp [lineDateNormalized, htok, hmdy2]
  · have hsp : isWsChar ' ' = true := by decide
    have htok : lineDateValue
          ['d', 'a', 't', 'e', ':', ' ', y1, y2, y3, y4, '-', m1, m2, '-', d1, d2]
        = some [y1, y2, y3, y4, '-', m1, m2, '-', d1, d2] := by
      simp [lineDateValue, List.isPrefixOf, dateTokenAt, mdyTokenAt, isoTokenAt,
        takeDigits, hm1, hm2, hd1, hd2, hy1, hy2, hy3, hy4, hdash, hwy1, hsp]
    simp [lineDateNormalized, htok, hiso]
  · intro v hv
    simpa [lineDateValue, List.isPrefixOf] using hv

/-- C7 witness: March 5, 2026, written three ways, plus a dropped value. -/
theorem date_two_formats_normalize_equal_witness :
    normalizeDateToISO "03/05/2026" = "2026-03-05"
    ∧ normalizeDateToISO "3/5/2026" = "2026-03-05"
    ∧ normalizeDateToISO "2026-03-05" = "2026-03-05"
    ∧ lineDateNormalized ("date: ".data ++ "03/05/2026".data) = some "2026-03-05"
    ∧ lineDateNormalized ("date: ".data ++ "2026-03-05".data) = some "2026-03-05"
    ∧ lineDateValue ("date:".data ++ " March 5, 2026".data) = none := by
  have h := date_two_formats_normalize_equal '0' '3' '0' '5' '2' '0' '2' '6'
    (by decide) (by decide) (by decide) (by decide)
    (by decide) (by decide) (by decide) (by decide)
  exact ⟨h.1, h.2.1, h.2.2.1, h.2.2.2.1, h.2.2.2.2.1,
    h.2.2.2.2.2 " March 5, 2026".data (by decide)⟩

/-! ## Claim C9: the extractor is total and falls back -/

/-- C9.  The record builder is a total function of the raw content: the
produced record always carries the requested `filePath`; when the
extractor yields no title the record's title is the filename-derived
fallback (`filePath.split("/").pop() ?? "Unknown"`); and on content with
neither a frontmatter block nor a heading line, every extracted field is
absent. -/
theorem extractor_total_with_fallbacks (content filePath repoName rawUrl : String) :
    (buildUpdateRecord content filePath repoName rawUrl).filePath = filePath
    ∧ ((parseFrontmatter content).title = none →
        (buildUpdateRecord content filePath repoName rawUrl).title
          = (((splitOnChar '/' filePath.data).getLast?).map String.mk).getD "Unknown")
    ∧ (frontmatterBlock content.data = none →
        (splitLines content.data).findSome? lineHeadingValue = none →
        parseFrontmatter content = { title := none, description := none, date := none }) := by
  refine ⟨rfl, ?_, ?_⟩
  · intro h
    simp [buildUpdateRecord, h]
  · intro h1 h2
    simp [parseFrontmatter, h1, h2]

/-- C9 witness: content that is not markdown at all still yields a
record, titled from the filename, with every extracted field absent. -/
theorem extractor_total_with_fallbacks_witness :
    (buildUpdateRecord "<html>" "a/b.md" "power-platform" "u").filePath = "a/b.md"
    ∧ (buildUpdateRecord "<html>" "a/b.md" "power-platform" "u").title = "b.md"
    ∧ parseFrontmatter "<html>" = { title := none, description := none, date := none } := by
  have h := extractor_total_with_fallbacks "<html>" "a/b.md" "power-platform" "u"
  refine ⟨h.1, ?_, h.2.2 (by decide) (by decide)⟩
  rw [h.2.1 (by decide)]
  decide

/-! ## The sync orchestrators

Two `syncFromGitHub` implementations live in the repository: the current
sql.js service (with repository-level diff check, incremental mode,
`repo_sha` watermarks and conditional checkpoint advancement) and the
legacy better-sqlite3 service (`src/mcp/services/sync.service.ts`, which
always advances the checkpoint).  Both are modeled as pure state
transformers.  Remote responses are passed in via `RemoteEnv`
(`fetchFile path = none` models a fetch/parse failure for that file); the
model additionally returns a `SyncTrace` recording which remote file
fetches were performed and the deferred-by-cap count.  Timestamps are
milliseconds (`Int`); `hoursSinceLastSync < 1` is `now - lastSync <
3600000`.  Durations are abstracted to 0.  Within a parallel chunk,
results are persisted serially in chunk order, so the chunked
`Promise.all` loop equals the sequential fold used here.  Thrown
persistence errors (the outer `catch`) are outside the model: every
modeled store operation is total. -/

structure Checkpoint where
  lastSync : Int
  syncStatus : String
  recordCount : Nat
  lastSyncDurationMs : Int
  lastError : Option String
deriving Repr, DecidableEq

/-- The optional-field argument of `updateSyncCheckpoint`: only the
present fields are written. -/
structure CheckpointPatch where
  lastSync : Option Int := none
  syncStatus : Option String := none
  recordCount : Option Nat := none
  lastSyncDurationMs : Option Int := none
  lastError : Option (Option String) := none
deriving Repr, DecidableEq

/-- `updateSyncCheckpoint` (`queries.ts`): dynamic `UPDATE sync_checkpoint
SET ...` over the present fields of the patch. -/
def updateSyncCheckpoint (cp : Checkpoint) (p : CheckpointPatch) : Checkpoint :=
  { lastSync := p.lastSync.getD cp.lastSync
    syncStatus := p.syncStatus.getD cp.syncStatus
    recordCount := p.recordCount.getD cp.recordCount
    lastSyncDurationMs := p.lastSyncDurationMs.getD cp.lastSyncDurationMs
    lastError := p.lastError.getD cp.lastError }

structure CommitRow where
  sha : String
  message : String
  author : Option String
  date : String
  filesChanged : Option Nat
  additions : Option Nat
  deletions : Option Nat
deriving Repr, DecidableEq

/-- `upsertCommit` (`queries.ts`): keyed by `sha`, all other columns
overwritten on conflict. -/
def upsertCommit (tbl : List CommitRow) (c : CommitRow) : List CommitRow :=
  if tbl.any (fun r => r.sha == c.sha) then
    tbl.map (fun r => if r.sha == c.sha then { c with sha := r.sha } else r)
  else
    tbl ++ [c]

/-- `upsertRepoSha` (`queries.ts`): `INSERT OR REPLACE` keyed by `repo`. -/
def upsertRepoSha (m : List (String × String)) (repo sha : String) :
    List (String × String) :=
  if m.any (fun p => p.1 == repo) then
    m.map (fun p => if p.1 == repo then (p.1, sha) else p)
  else
    m ++ [(repo, sha)]

/-- `Map.get` on the repo-SHA / file-SHA maps. -/
def lookupSha (m : List (String × String)) (k : String) : Option String :=
  (m.find? (fun p => p.1 == k)).map (fun p => p.2)

/-- `getFileShaMap` (`queries.ts`): `file_path → commit_sha` over the rows
whose `commit_sha` is non-null. -/
def getFileShaMap (tbl : List UpdateRow) : List (String × String) :=
  tbl.filterMap (fun r => r.commitSha.map (fun s => (r.filePath, s)))

/-- The sql.js database state touched by the sync service. -/
structure SqlJsDB where
  checkpoint : Checkpoint
  updates : List UpdateRow
  commits : List CommitRow
  repoShas : List (String × String)
deriving Repr, DecidableEq

/-- The legacy better-sqlite3 database state (no `repo_sha` table). -/
structure SqliteDB where
  checkpoint : Checkpoint
  updates : List UpdateRow
  commits : List CommitRow
deriving Repr, DecidableEq

structure SyncOptions where
  force : Bool := false
  maxFiles : Nat := 500
  incremental : Bool := false
deriving Repr, DecidableEq

structure RecentChange where
  filePath : String
  date : String
  sha : String
deriving Repr, DecidableEq

structure ChangedFile where
  path : String
  sha : String
  commitDate : String
deriving Repr, DecidableEq

/-- The remote behavior for one run: what each GitHub call would return.
`fetchFile path = none` models `fetchAndParseFile` throwing for that file;
`repoShasResult = none` models `getAllRepositoryLatestShas` throwing. -/
structure RemoteEnv where
  now : Int
  repoShasResult : Option (List (String × String))
  whatsNewFiles : List SyncFile
  fetchFile : String → Option UpdateRow
  recentCommits : List CommitRow
  recentlyChanged : List RecentChange
  changedSince : List ChangedFile

structure SyncResult where
  success : Bool
  updatesCount : Nat
  commitsCount : Nat
  durationMs : Int
  error : Option String
deriving Repr, DecidableEq

/-- Observable remote-fetch activity of one run. -/
structure SyncTrace where
  listedFiles : Bool
  fetchedPaths : List String
  deferredByMaxFiles : Nat
deriving Repr, DecidableEq

/-- The per-file processing loop: fetch+parse each candidate (a chunk's
results are persisted serially in order, so this sequential fold equals
the chunked loop), upserting successes with `commitSha := file.sha` and
counting failures.  Returns (table, updatesCount, errorCount, fetched). -/
def processFiles (env : RemoteEnv) : List SyncFile → List UpdateRow →
    List UpdateRow × Nat × Nat × List String
  | [], tbl => (tbl, 0, 0, [])
  | f :: fs, tbl =>
      match env.fetchFile f.path with
      | some u =>
          let tbl1 := upsertUpdate tbl { u with commitSha := some f.sha }
          let r := processFiles env fs tbl1
          (r.1, r.2.1 + 1, r.2.2.1, f.path :: r.2.2.2)
      | none =>
          let r := processFiles env fs tbl
          (r.1, r.2.1, r.2.2.1 + 1, f.path :: r.2.2.2)

/-- The incremental variant of the loop: successes additionally carry
`commitDate := file.commitDate`. -/
def processChangedFiles (env : RemoteEnv) : List ChangedFile → List UpdateRow →
    List UpdateRow × Nat × Nat × List String
  | [], tbl => (tbl, 0, 0, [])
  | f :: fs, tbl =>
      match env.fetchFile f.path with
      | some u =>
          let tbl1 := upsertUpdate tbl
            { u with commitSha := some f.sha, commitDate := some f.commitDate }
          let r := processChangedFiles env fs tbl1
          (r.1, r.2.1 + 1, r.2.2.1, f.path :: r.2.2.2)
      | none =>
          let r := processChangedFiles env fs tbl
          (r.1, r.2.1, r.2.2.1 + 1, f.path :: r.2.2.2)

/-- The SHA-diff candidate filter of `syncFromGitHub`: everything on a
forced or first sync, otherwise the files whose blob SHA differs from the
stored `commit_sha`. -/
def eligibleFiles (env : RemoteEnv) (updates : List UpdateRow) (force : Bool) :
    List SyncFile :=
  let shaMap := getFileShaMap updates
  let isFirstSync := shaMap.isEmpty
  env.whatsNewFiles.filter (fun f =>
    if force || isFirstSync then true
    else lookupSha shaMap f.path != some f.sha)

/-- `incrementalSync` (sql.js service): fetch only the files changed since
the last sync; the checkpoint's `lastSync` advances only when no file
failed.  Returns the new state, the result, and the fetched paths. -/
def incrementalSync (env : RemoteEnv) (db : SqlJsDB) :
    SqlJsDB × SyncResult × List String :=
  if env.changedSince.isEmpty then
    let cp2 := updateSyncCheckpoint db.checkpoint
      { lastSync := some env.now, syncStatus := some "idle"
        recordCount := some db.updates.length, lastSyncDurationMs := some 0 }
    ({ db with checkpoint := cp2 },
      { success := true, updatesCount := 0, commitsCount := 0, durationMs := 0
        error := none },
      [])
  else
    let r := processChangedFiles env env.changedSince db.updates
    let uc := r.2.1
    let ec := r.2.2.1
    let hasProcessingErrors := 0 < ec
    let patch : CheckpointPatch :=
      { lastSync := if hasProcessingErrors then none else some env.now
        syncStatus := some "idle"
        recordCount := some r.1.length
        lastSyncDurationMs := some 0
        lastError := some (if 0 < ec then some (toString ec ++ " files failed") else none) }
    let cpf := updateSyncCheckpoint db.checkpoint patch
    ({ db with updates := r.1, checkpoint := cpf },
      { success := ¬(0 < ec), updatesCount := uc, commitsCount := 0, durationMs := 0
        error := if 0 < ec then some (toString ec ++ " files failed") else none },
      r.2.2.2)

/-- `syncFromGitHub` — the current sql.js sync service.  In order: mark
`syncing`; the recent-sync guard; the repository-level SHA diff check
(skip everything when reliable and nothing changed, otherwise remember
the fetched SHAs to persist on a clean finish); incremental mode; full
listing, SHA-diff filter capped at `maxFiles`, per-file processing,
commit history, recent commit-date updates; then the final checkpoint,
whose `lastSync` is written only when no file failed and nothing was
deferred by the cap, and the `repo_sha` watermarks likewise. -/
def syncFromGitHub (env : RemoteEnv) (db : SqlJsDB) (opts : SyncOptions) :
    SqlJsDB × SyncResult × SyncTrace :=
  let cp1 := updateSyncCheckpoint db.checkpoint
    { syncStatus := some "syncing", lastError := some none }
  let db1 : SqlJsDB := { db with checkpoint := cp1 }
  if opts.force = false ∧ env.now - db1.checkpoint.lastSync < 3600000 then
    let cp2 := updateSyncCheckpoint db1.checkpoint
      { syncStatus := some "idle", recordCount := some db1.updates.length }
    ({ db1 with checkpoint := cp2 },
      { success := true, updatesCount := 0, commitsCount := 0, durationMs := 0
        error := none },
      { listedFiles := false, fetchedPaths := [], deferredByMaxFiles := 0 })
  else
    -- repository-level diff check (latest SHAs to persist later, skip-all flag)
    let repoCheck : Option (List (String × String)) × Bool :=
      if opts.force = false then
        match env.repoShasResult with
        | none => (none, false)
        | some latest =>
            if 0 < latest.length
                ∧ (db1.repoShas.isEmpty = true ∨ db1.repoShas.length ≤ latest.length) then
              if (latest.filter (fun p => lookupSha db1.repoShas p.1 != some p.2)).isEmpty then
                (none, true)
              else (some latest, false)
            else (none, false)
      else (none, false)
    if repoCheck.2 then
      let cp2 := updateSyncCheckpoint db1.checkpoint
        { lastSync := some env.now, syncStatus := some "idle"
          recordCount := some db1.updates.length, lastSyncDurationMs := some 0
          lastError := some none }
      ({ db1 with checkpoint := cp2 },
        { success := true, updatesCount := 0, commitsCount := 0, durationMs := 0
          error := none },
        { listedFiles := false, fetchedPaths := [], deferredByMaxFiles := 0 })
    else if opts.incremental = true ∧ opts.force = false then
      -- the stored lastSync string is never empty, so the truthiness
      -- check on checkpoint.lastSync always passes here
      let r := incrementalSync env db1
      let db2 := if r.2.1.success = true ∧ repoCheck.1.isSome then
          { r.1 with repoShas :=
              (repoCheck.1.getD []).foldl (fun m p => upsertRepoSha m p.1 p.2) r.1.repoShas }
        else r.1
      (db2, r.2.1,
        { listedFiles := false, fetchedPaths := r.2.2, deferredByMaxFiles := 0 })
    else
      let files := env.whatsNewFiles
      let ftp := (eligibleFiles env db1.updates opts.force).take opts.maxFiles
      let deferred := files.length - ftp.length
      let isCapped := 0 < deferred
      let pr := processFiles env ftp db1.updates
      let uc := pr.2.1
      let ec := pr.2.2.1
      let commits2 := env.recentCommits.foldl upsertCommit db1.commits
      let tbl2 := env.recentlyChanged.foldl
        (fun t c => updateCommitDate t c.filePath c.date c.sha) pr.1
      let hasProcessingErrors := 0 < ec ∨ isCapped
      let issues := (if 0 < ec then [toString ec ++ " files failed"] else [])
        ++ (if isCapped then [toString deferred ++ " files deferred by maxFiles limit"] else [])
      let repoShas2 := if repoCheck.1.isSome ∧ ¬hasProcessingErrors then
          (repoCheck.1.getD []).foldl (fun m p => upsertRepoSha m p.1 p.2) db1.repoShas
        else db1.repoShas
      let patch : CheckpointPatch :=
        { lastSync := if hasProcessingErrors then none else some env.now
          syncStatus := some "idle"
          recordCount := some tbl2.length
          lastSyncDurationMs := some 0
          lastError := some (if issues.isEmpty then none
            else some (String.intercalate "; " issues)) }
      let cpf := updateSyncCheckpoint db1.checkpoint patch
      let dbf : SqlJsDB :=
        { checkpoint := cpf, updates := tbl2, commits := commits2, repoShas := repoShas2 }
      let res : SyncResult :=
        { success := !hasProcessingErrors, updatesCount := uc
          commitsCount := env.recentCommits.length, durationMs := 0
          error := if hasProcessingErrors then some (String.intercalate "; " issues)
            else none }
      (dbf, res,
        { listedFiles := true, fetchedPaths := pr.2.2.2, deferredByMaxFiles := deferred })

/-- `syncFromGitHub` — the legacy better-sqlite3 sync service
(`sync.service.ts`): same guard and per-file loop, but no repository diff
check, no incremental mode, and an unconditional final checkpoint write
with `lastSync := now` and `recordCount := updatesCount`; the result is
reported as `success := true` even when files failed.  The recent-sync
guard returns `updatesCount := checkpoint.recordCount`. -/
def syncFromGitHubSqlite (env : RemoteEnv) (db : SqliteDB) (opts : SyncOptions) :
    SqliteDB × SyncResult × SyncTrace :=
  let cp1 := updateSyncCheckpoint db.checkpoint
    { syncStatus := some "syncing", lastError := some none }
  let db1 : SqliteDB := { db with checkpoint := cp1 }
  if opts.force = false ∧ env.now - db1.checkpoint.lastSync < 3600000 then
    let cp2 := updateSyncCheckpoint db1.checkpoint { syncStatus := some "idle" }
    ({ db1 with checkpoint := cp2 },
      { success := true, updatesCount := db1.checkpoint.recordCount
        commitsCount := 0, durationMs := 0, error := none },
      { listedFiles := false, fetchedPaths := [], deferredByMaxFiles := 0 })
  else
    let ftp := (eligibleFiles env db1.updates opts.force).take opts.maxFiles
    let pr := processFiles env ftp db1.updates
    let uc := pr.2.1
    let ec := pr.2.2.1
    let commits2 := env.recentCommits.foldl upsertCommit db1.commits
    let tbl2 := env.recentlyChanged.foldl
      (fun t c => updateCommitDate t c.filePath c.date c.sha) pr.1
    let patch : CheckpointPatch :=
      { lastSync := some env.now
        syncStatus := some "idle"
        recordCount := some uc
        lastSyncDurationMs := some 0
        lastError := some (if 0 < ec then some (toString ec ++ " files failed") else none) }
    let cpf := updateSyncCheckpoint db1.checkpoint patch
    let dbf : SqliteDB := { checkpoint := cpf, updates := tbl2, commits := commits2 }
    let res : SyncResult :=
      { success := true, updatesCount := uc, commitsCount := env.recentCommits.length
        durationMs := 0, error := none }
    (dbf, res,
      { listedFiles := true, fetchedPaths := pr.2.2.2, deferredByMaxFiles := 0 })

/-! ### Lemmas about the processing loop -/

theorem processFiles_fetched (env : RemoteEnv) :
    ∀ (l : List SyncFile) (tbl : List UpdateRow),
      (processFiles env l tbl).2.2.2 = l.map (fun f => f.path) := by
  intro l
  induction l with
  | nil => intro tbl; rfl
  | cons f fs ih =>
    intro tbl
    simp only [processFiles, List.map_cons]
    cases env.fetchFile f.path <;> simp [ih]

theorem processFiles_error_pos (env : RemoteEnv) :
    ∀ (l : List SyncFile) (tbl : List UpdateRow),
      (∃ f ∈ l, env.fetchFile f.path = none) →
      0 < (processFiles env l tbl).2.2.1 := by
  intro l
  induction l with
  | nil => intro tbl h; simp at h
  | cons f fs ih =>
    intro tbl h
    simp only [processFiles]
    rcases h with ⟨g, hg, hnone⟩
    rcases List.mem_cons.1 hg with rfl | hgs
    · rw [hnone]
      simp
    · cases hfetch : env.fetchFile f.path
      · simp only []
        have := ih tbl ⟨g, hgs, hnone⟩
        simp
      · simp only []
        exact ih _ ⟨g, hgs, hnone⟩

/-! ## Claim C5: the recent-sync guard is a no-op -/

/-- C5, as it holds on the current sql.js service: with `force` unset and
the previous run less than an hour old, the run performs no remote file
fetch (not even the listing), leaves the article table and watermarks
untouched, and reports `success = true` with `updatesCount = 0`. -/
theorem syncFromGitHub_recent_noop (env : RemoteEnv) (db : SqlJsDB) (opts : SyncOptions)
    (hf : opts.force = false)
    (ht : env.now - db.checkpoint.lastSync < 3600000) :
    (syncFromGitHub env db opts).2.1.success = true
    ∧ (syncFromGitHub env db opts).2.1.updatesCount = 0
    ∧ (syncFromGitHub env db opts).2.2.listedFiles = false
    ∧ (syncFromGitHub env db opts).2.2.fetchedPaths = []
    ∧ (syncFromGitHub env db opts).1.updates = db.updates
    ∧ (syncFromGitHub env db opts).1.repoShas = db.repoShas := by
  have hcond : opts.force = false ∧
      env.now - (updateSyncCheckpoint db.checkpoint
        { syncStatus := some "syncing", lastError := some none }).lastSync < 3600000 :=
    ⟨hf, ht⟩
  simp only [syncFromGitHub]
  rw [if_pos hcond]
  exact ⟨rfl, rfl, rfl, rfl, rfl, rfl⟩

/-- A quiet remote environment for concrete guard runs. -/
def envGuard : RemoteEnv :=
  { now := 1000, repoShasResult := none, whatsNewFiles := []
    fetchFile := fun _ => none, recentCommits := [], recentlyChanged := []
    changedSince := [] }

def cpGuard : Checkpoint :=
  { lastSync := 0, syncStatus := "idle", recordCount := 3
    lastSyncDurationMs := 0, lastError := none }

def dbGuard : SqlJsDB :=
  { checkpoint := cpGuard, updates := [], commits := [], repoShas := [] }

/-- C5 witness: a run 1 second after the previous one. -/
theorem syncFromGitHub_recent_noop_witness :
    (syncFromGitHub envGuard dbGuard {}).2.1.success = true
    ∧ (syncFromGitHub envGuard dbGuard {}).2.1.updatesCount = 0
    ∧ (syncFromGitHub envGuard dbGuard {}).2.2.listedFiles = false
    ∧ (syncFromGitHub envGuard dbGuard {}).2.2.fetchedPaths = []
    ∧ (syncFromGitHub envGuard dbGuard {}).1.updates = dbGuard.updates
    ∧ (syncFromGitHub envGuard dbGuard {}).1.repoShas = dbGuard.repoShas :=
  syncFromGitHub_recent_noop envGuard dbGuard {} rfl (by norm_num [envGuard, dbGuard, cpGuard])

/-- The legacy better-sqlite3 checkpoint/database for the counterexamples. -/
def cpLegacy : Checkpoint :=
  { lastSync := 0, syncStatus := "idle", recordCount := 5
    lastSyncDurationMs := 0, lastError := none }

def dbLegacy : SqliteDB :=
  { checkpoint := cpLegacy, updates := [], commits := [] }

/-- C5, counterexample.  The claim says the recent-run no-op returns
`updatesCount = 0`.  The legacy better-sqlite3 `syncFromGitHub`
(`sync.service.ts:71-82`) instead echoes the checkpoint's `recordCount`:
with `recordCount = 5` stored, the guarded run reports `updatesCount = 5`. -/
theorem syncFromGitHubSqlite_recent_noop_nonzero :
    (syncFromGitHubSqlite envGuard dbLegacy {}).2.1.success = true
    ∧ (syncFromGitHubSqlite envGuard dbLegacy {}).2.2.fetchedPaths = []
    ∧ (syncFromGitHubSqlite envGuard dbLegacy {}).2.1.updatesCount = 5
    ∧ (5 : Nat) ≠ 0 := by
  refine ⟨rfl, rfl, rfl, by decide⟩

/-! ## Claim C3: `maxFiles` bounding and deferral -/

/-- C3, amended.  When the eligible (changed) candidates exceed
`maxFiles`, exactly `maxFiles` files are fetched and processed and the
checkpoint's `lastSync` does not advance; but the deferred count the run
reports is the **total** number of candidate files minus the processed
count — it equals "eligible minus processed" only when every candidate
is eligible (e.g. a first or forced sync). -/
theorem syncFromGitHub_cap_defers (env : RemoteEnv) (db : SqlJsDB) (opts : SyncOptions)
    (hf : opts.force = false) (hinc : opts.incremental = false)
    (ht : ¬ env.now - db.checkpoint.lastSync < 3600000)
    (hshas : env.repoShasResult = none)
    (hmax : opts.maxFiles < (eligibleFiles env db.updates false).length) :
    (syncFromGitHub env db opts).2.2.fetchedPaths.length = opts.maxFiles
    ∧ (syncFromGitHub env db opts).2.2.deferredByMaxFiles
        = env.whatsNewFiles.length - opts.maxFiles
    ∧ (syncFromGitHub env db opts).1.checkpoint.lastSync = db.checkpoint.lastSync
    ∧ (syncFromGitHub env db opts).2.1.success = false
    ∧ (env.whatsNewFiles.length = (eligibleFiles env db.updates false).length →
        (syncFromGitHub env db opts).2.2.deferredByMaxFiles
          = (eligibleFiles env db.updates false).length
              - (syncFromGitHub env db opts).2.2.fetchedPaths.length) := by
  have hcond : ¬ (opts.force = false ∧
      env.now - (updateSyncCheckpoint db.checkpoint
        { syncStatus := some "syncing", lastError := some none }).lastSync < 3600000) :=
    fun hc => ht hc.2
  have htake : ((eligibleFiles env db.updates false).take opts.maxFiles).length
      = opts.maxFiles := by
    rw [List.length_take]
    omega
  have hfetchlen : ∀ tbl, ((processFiles env
        ((eligibleFiles env db.updates false).take opts.maxFiles) tbl).2.2.2).length
      = opts.maxFiles := by
    intro tbl
    rw [processFiles_fetched, List.length_map, htake]
  have hfle : (eligibleFiles env db.updates false).length ≤ env.whatsNewFiles.length := by
    simpa [eligibleFiles] using
      List.length_filter_le _ env.whatsNewFiles
  have hcap : 0 < env.whatsNewFiles.length -
      ((eligibleFiles env db.updates false).take opts.maxFiles).length := by
    rw [htake]; omega
  simp only [syncFromGitHub]
  rw [if_neg hcond]
  simp only [hshas, hf, hinc, if_true, if_false, Bool.false_eq_true, false_and,
    and_true, ite_self, ite_true, ite_false]
  refine ⟨?_, ?_, ?_, ?_, ?_⟩
  all_goals simp only [hfetchlen, htake]
  · have hcap2 : 0 < env.whatsNewFiles.length - opts.maxFiles := by omega
    rw [if_pos (Or.inr hcap2)]
    rfl
  · have hcap2 : 0 < env.whatsNewFiles.length - opts.maxFiles := by omega
    simp [Or.inr hcap2]
    omega
  · intro heq
    rw [heq]

def cpZero : Checkpoint :=
  { lastSync := 0, syncStatus := "idle", recordCount := 0
    lastSyncDurationMs := 0, lastError := none }

/-- Three candidate files, one of which (`C.md`) is unchanged. -/
def envCap : RemoteEnv :=
  { now := 7200000, repoShasResult := none
    whatsNewFiles := [⟨"A.md", "a2"⟩, ⟨"B.md", "b2"⟩, ⟨"C.md", "c1"⟩]
    fetchFile := fun p => if p == "C.md" then none else some (sampleRow p none)
    recentCommits := [], recentlyChanged := [], changedSince := [] }

def dbCap : SqlJsDB :=
  { checkpoint := cpZero
    updates := [{ sampleRow "A.md" none with commitSha := some "a1" },
                { sampleRow "C.md" none with commitSha := some "c1" }]
    commits := [], repoShas := [] }

/-- C3, counterexample.  With 3 candidate files of which 2 are eligible
(changed) and `maxFiles = 1`, one file is processed; the claim predicts a
deferred count of eligible − processed = 1, but the run computes it from
the total candidate list: 3 − 1 = 2. -/
theorem syncFromGitHub_deferred_count_not_eligible :
    (eligibleFiles envCap dbCap.updates false).length = 2
    ∧ (syncFromGitHub envCap dbCap { maxFiles := 1 }).2.2.fetchedPaths = ["A.md"]
    ∧ (syncFromGitHub envCap dbCap { maxFiles := 1 }).2.2.deferredByMaxFiles = 2
    ∧ (eligibleFiles envCap dbCap.updates false).length
        - (syncFromGitHub envCap dbCap { maxFiles := 1 }).2.2.fetchedPaths.length = 1
    ∧ (2 : Nat) ≠ 1 := by
  refine ⟨rfl, rfl, rfl, rfl, by decide⟩

/-- Five candidate files on a first sync (everything eligible). -/
def envCapFive : RemoteEnv :=
  { now := 7200000, repoShasResult := none
    whatsNewFiles := [⟨"A.md", "a1"⟩, ⟨"B.md", "b1"⟩, ⟨"C.md", "c1"⟩,
                      ⟨"D.md", "d1"⟩, ⟨"E.md", "e1"⟩]
    fetchFile := fun p => some (sampleRow p none)
    recentCommits := [], recentlyChanged := [], changedSince := [] }

def dbCapFive : SqlJsDB :=
  { checkpoint := cpZero, updates := [], commits := [], repoShas := [] }

/-- C3 witness: `maxFiles = 2` with 5 eligible candidates gives 2
processed, 3 deferred, and an unmoved checkpoint. -/
theorem syncFromGitHub_cap_defers_witness :
    (syncFromGitHub envCapFive dbCapFive { maxFiles := 2 }).2.2.fetchedPaths.length = 2
    ∧ (syncFromGitHub envCapFive dbCapFive { maxFiles := 2 }).2.2.deferredByMaxFiles = 3
    ∧ (syncFromGitHub envCapFive dbCapFive { maxFiles := 2 }).1.checkpoint.lastSync
        = dbCapFive.checkpoint.lastSync
    ∧ (syncFromGitHub envCapFive dbCapFive { maxFiles := 2 }).2.1.success = false
    ∧ (syncFromGitHub envCapFive dbCapFive { maxFiles := 2 }).2.2.deferredByMaxFiles
        = (eligibleFiles envCapFive dbCapFive.updates false).length
            - (syncFromGitHub envCapFive dbCapFive { maxFiles := 2 }).2.2.fetchedPaths.length := by
  have h := syncFromGitHub_cap_defers envCapFive dbCapFive { maxFiles := 2 }
    rfl rfl (by decide) rfl (by decide)
  exact ⟨h.1, h.2.1.trans (by decide), h.2.2.1, h.2.2.2.1,
    h.2.2.2.2 (by decide)⟩

/-! ## Claim C2: partial failure withholds checkpoint and watermark -/

/-- C2, amended (and as it holds on the current sql.js service).  When a
run reaches per-file processing — guard passed, repository diff check
returned fresh SHAs for changed repositories — and at least one candidate
file's fetch/parse fails while another succeeds, the checkpoint's
`lastSync` is unchanged from before the run, no `repo_sha` watermark is
persisted, and the run reports `success = false`. -/
theorem syncFromGitHub_partial_failure_no_advance (env : RemoteEnv) (db : SqlJsDB)
    (opts : SyncOptions) (latest : List (String × String))
    (hf : opts.force = false) (hinc : opts.incremental = false)
    (ht : ¬ env.now - db.checkpoint.lastSync < 3600000)
    (hshas : env.repoShasResult = some latest)
    (hrel : 0 < latest.length
      ∧ (db.repoShas.isEmpty = true ∨ db.repoShas.length ≤ latest.length))
    (hchanged : ¬ (latest.filter
        (fun p => lookupSha db.repoShas p.1 != some p.2)).isEmpty = true)
    (hfail : ∃ f ∈ (eligibleFiles env db.updates false).take opts.maxFiles,
        env.fetchFile f.path = none)
    (hsucc : ∃ g ∈ (eligibleFiles env db.updates false).take opts.maxFiles,
        (env.fetchFile g.path).isSome = true) :
    (syncFromGitHub env db opts).1.checkpoint.lastSync = db.checkpoint.lastSync
    ∧ (syncFromGitHub env db opts).1.repoShas = db.repoShas
    ∧ (syncFromGitHub env db opts).2.1.success = false := by
  have hcond : ¬ (opts.force = false ∧
      env.now - (updateSyncCheckpoint db.checkpoint
        { syncStatus := some "syncing", lastError := some none }).lastSync < 3600000) :=
    fun hc => ht hc.2
  have hec : 0 < (processFiles env
      ((eligibleFiles env db.updates false).take opts.maxFiles) db.updates).2.2.1 :=
    processFiles_error_pos env _ _ hfail
  simp only [syncFromGitHub]
  rw [if_neg hcond]
  simp only [hshas, hf, hinc, if_true, if_false, Bool.false_eq_true, false_and,
    and_true, ite_self, ite_true, ite_false]
  rw [if_pos hrel, if_neg hchanged]
  simp only [if_true, if_false, Bool.false_eq_true, false_and, and_true,
    ite_self, ite_true, ite_false]
  refine ⟨?_, ?_, ?_⟩
  · rw [if_pos (Or.inl hec)]
    rfl
  · rw [if_neg (fun hc => hc.2 (Or.inl hec))]
  · simp [Or.inl hec]

/-- Two candidate files; fetching `B.md` fails, `A.md` succeeds. -/
def envFail : RemoteEnv :=
  { now := 7200000, repoShasResult := some [("power-platform", "sha2")]
    whatsNewFiles := [⟨"A.md", "a1"⟩, ⟨"B.md", "b1"⟩]
    fetchFile := fun p => if p == "B.md" then none else some (sampleRow p none)
    recentCommits := [], recentlyChanged := [], changedSince := [] }

def dbFail : SqlJsDB :=
  { checkpoint := cpZero
    updates := [{ sampleRow "A.md" none with commitSha := some "a0" }]
    commits := [], repoShas := [("power-platform", "sha1")] }

/-- C2 witness: the concrete partial-failure run on the sql.js service. -/
theorem syncFromGitHub_partial_failure_no_advance_witness :
    (syncFromGitHub envFail dbFail {}).1.checkpoint.lastSync = dbFail.checkpoint.lastSync
    ∧ (syncFromGitHub envFail dbFail {}).1.repoShas = dbFail.repoShas
    ∧ (syncFromGitHub envFail dbFail {}).2.1.success = false :=
  syncFromGitHub_partial_failure_no_advance envFail dbFail {} [("power-platform", "sha2")]
    rfl rfl (by decide) rfl (by decide) (by decide)
    ⟨⟨"B.md", "b1"⟩, by decide, by decide⟩
    ⟨⟨"A.md", "a1"⟩, by decide, by decide⟩

def dbLegacyRun : SqliteDB := { checkpoint := cpZero, updates := [], commits := [] }

/-- C2, counterexample.  The legacy better-sqlite3 `syncFromGitHub`
(`sync.service.ts:185-208`) writes `lastSync := now` unconditionally: in
a run where `A.md` succeeds and `B.md` fails, `lastSync` advances from 0
to the run's timestamp even though the error was recorded. -/
theorem syncFromGitHubSqlite_partial_failure_advances :
    (syncFromGitHubSqlite envFail dbLegacyRun {}).2.1.updatesCount = 1
    ∧ (syncFromGitHubSqlite envFail dbLegacyRun {}).1.checkpoint.lastError
        = some (some "1 files failed")
    ∧ dbLegacyRun.checkpoint.lastSync = 0
    ∧ (syncFromGitHubSqlite envFail dbLegacyRun {}).1.checkpoint.lastSync = 7200000
    ∧ (7200000 : Int) ≠ 0 := by
  refine ⟨rfl, rfl, rfl, rfl, by decide⟩

end PowerPlat
